import Mathlib

/-!
Verification of the company-search agent backend.

The definitions below are a shallow embedding of `backend/routes/chat.py`
(and the `Company` model of `backend/db/database.py`).  Pure Python code is
translated into Lean functions; the two external effectful collaborators
(the `json.loads` standard-library parser and the SQLAlchemy/Postgres
storage handle) are passed in as explicit parameters, so that theorems
quantify over their behaviour and witnesses instantiate them concretely.
-/

namespace CompanySearch

/-- Python truthiness for an optional string: `None` and `""` are falsy. -/
def truthy (o : Option String) : Bool :=
  !(o.getD "").isEmpty

/-! ## Storage model: the `companies` table (backend/db/database.py)

`company_name`, `city`, `description`, `website_url`, `website_text` are all
nullable columns (SQLAlchemy `Column(String)` defaults to nullable), hence
`Option String`.  `created_at` is modelled as an integer timestamp; it is
never read by the search code. -/

structure Company where
  created_at : Int
  id : Int
  company_name : Option String
  company_id : Option Int
  city : Option String
  description : Option String
  website_url : Option String
  website_text : Option String
deriving DecidableEq

/-- The shape of one element of the list returned by `search_startups`:
a dict with keys `company_name`, `description`, `website_url`, `city`.
In the source, `description`, `website_url` and `city` are defaulted with
`or ""`, but `company_name` is passed through unchanged — it stays `None`
when the stored column is NULL, hence `Option String` here. -/
structure SearchResult where
  company_name : Option String
  description : String
  website_url : String
  city : String
deriving DecidableEq

/-! ## SQL `ILIKE` semantics

`Company.field.ilike(f"%{kw}%")` compiles to Postgres `ILIKE`, i.e.
case-insensitive LIKE-pattern matching in which `%` matches any sequence of
characters and `_` matches exactly one character.  (Postgres LIKE also has a
backslash escape character; no keyword appearing in any theorem below
contains a backslash, so escapes are not modelled.)  `NULL ILIKE p` is NULL,
so a row whose column is NULL never matches on that column. -/

/-- Predicate transformer: `anySuffix f s` is true iff `f` holds of some suffix of `s`
(including `s` itself and the empty suffix). -/
def anySuffix (f : List Char → Bool) : List Char → Bool
  | [] => f []
  | c :: s => f (c :: s) || anySuffix f s

/-- LIKE-pattern matching over character lists (pattern first): `%` matches
any sequence, `_` matches exactly one character, anything else matches
itself. -/
def likeMatch : List Char → List Char → Bool
  | [], s => s.isEmpty
  | p :: ps, s =>
    if p == '%' then anySuffix (likeMatch ps) s
    else
      match s with
      | [] => false
      | c :: s => (p == '_' || p == c) && likeMatch ps s

/-- Case folding used by `ILIKE`, applied characterwise. -/
def lowerChars (l : List Char) : List Char :=
  l.map Char.toLower

/-- Boolean test `ilikeB s pat`: does string `s` match LIKE pattern `pat`
case-insensitively? -/
def ilikeB (s pat : String) : Bool :=
  likeMatch (lowerChars pat.data) (lowerChars s.data)

/-- The `ILIKE` test lifted to a nullable column: a NULL column never matches. -/
def ilikeOpt (field : Option String) (pat : String) : Bool :=
  match field with
  | none => false
  | some s => ilikeB s pat

/-- One keyword's disjunction in `search_startups`:
`or_(company_name.ilike(p), description.ilike(p), website_text.ilike(p))`
with `p = f"%{kw}%"`. -/
def kwCond (comp : Company) (kw : String) : Bool :=
  let pat := "%" ++ kw ++ "%"
  ilikeOpt comp.company_name pat || ilikeOpt comp.description pat ||
    ilikeOpt comp.website_text pat

/-- The keyword stage: `if keywords: query.filter(or_(*conds))` — applied
only when the keyword list is non-empty, so an empty list passes every row. -/
def keywordStage (keywords : List String) (comp : Company) : Bool :=
  keywords.isEmpty || keywords.any (kwCond comp)

/-- The city stage: `if city: query.filter(Company.city.ilike(f"%{city}%"))` —
applied only when `city` is truthy (not `None`, not `""`). -/
def cityStage (city : Option String) (comp : Company) : Bool :=
  if truthy city then ilikeOpt comp.city ("%" ++ city.getD "" ++ "%") else true

/-- Python string slicing `s[:n]`: the first `n` characters. -/
def pyTake (s : String) (n : Nat) : String :=
  String.mk (s.data.take n)

/-- Conversion of one stored row into a result dict:
`description` is `(r.description or "")[:300]`, `website_url` and `city` are
defaulted with `or ""`, and `company_name` is `r.company_name` unchanged. -/
def toResult (comp : Company) : SearchResult :=
  { company_name := comp.company_name
    description := pyTake (comp.description.getD "") 300
    website_url := comp.website_url.getD ""
    city := comp.city.getD "" }

/-- The function `search_startups(keywords, city, limit)` from backend/routes/chat.py,
with the table contents `db` passed explicitly (the session scoping,
`db.close()` on every exit path, is not observable in a pure model).
`query.limit(limit).all()` keeps the first `limit` rows in table order. -/
def search_startups (db : List Company) (keywords : List String)
    (city : Option String) (limit : Nat) : List SearchResult :=
  ((db.filter fun comp => keywordStage keywords comp && cityStage city comp).take
    limit).map toResult

/-- The same query pipeline when the Python call reaches `query.limit(None)`
(a present `"limit": null` in the arguments): SQLAlchemy removes the LIMIT
clause, so every matching row is returned. -/
def search_startups_nolimit (db : List Company) (keywords : List String)
    (city : Option String) : List SearchResult :=
  (db.filter fun comp => keywordStage keywords comp && cityStage city comp).map
    toResult

/-! ## Spec-side definitions (for refutation only)

These two definitions follow the words of the specification, not the source;
they exist to be compared with the source-derived definitions above. -/

/-- Boolean prefix test over character lists. -/
def isPrefixB : List Char → List Char → Bool
  | [], _ => true
  | _ :: _, [] => false
  | p :: ps, c :: s => p == c && isPrefixB ps s

/-- Boolean infix (contiguous substring) test over character lists;
first argument is the pattern sought inside the second. -/
def isInfixB (pat : List Char) : List Char → Bool
  | [] => pat.isEmpty
  | c :: s => isPrefixB pat (c :: s) || isInfixB pat s

/-- Modelled from the spec: "found as a case-insensitive substring" —
plain substring containment after case folding, with no wildcard
interpretation.  `containsCI_spec hay pat` asks whether `pat` occurs inside
`hay`. -/
def containsCI_spec (hay pat : String) : Bool :=
  isInfixB (lowerChars pat.data) (lowerChars hay.data)

/-- A pattern fragment is wildcard-free when it contains neither `%` nor
`_`; on such keywords LIKE matching and substring matching coincide. -/
def noWildcards (l : List Char) : Bool :=
  l.all fun c => !(c == '%') && !(c == '_')

/-- The test `containsCI_spec` lifted to a nullable column, mirroring `ilikeOpt`. -/
def optContainsCI (field : Option String) (kw : String) : Bool :=
  match field with
  | none => false
  | some s => containsCI_spec s kw

/-- Modelled from the spec: "SearchResult: company_name, description,
website_url, city — all strings, defaulting to empty when the underlying
field is absent".  Differs from `toResult` only on `company_name`. -/
def toResult_spec (comp : Company) : SearchResult :=
  { toResult comp with company_name := some (comp.company_name.getD "") }

/-! ## Streamed events and the delta accumulator (run_agent, consumption loop)

One chunk of the provider stream carries at most one choice; the source reads
only `chunk.choices[0]`.  `delta = chunk.choices[0].delta if chunk.choices
else None; if not delta: continue` — an absent choice list and an absent
delta are both folded into `delta = none` (and then the chunk is skipped
entirely, including the finish check). -/

/-- The `tc.function` part of a tool-call delta: optional partial name and optional
partial arguments text. -/
structure FuncDelta where
  name : Option String
  arguments : Option String
deriving DecidableEq

/-- One tool-call delta fragment: `tc.index`, `tc.id`, `tc.function`.
The source guards on `tc.index is not None`, hence the option.  (OpenAI
indices are non-negative; Python negative indexing is not modelled.) -/
structure ToolCallDelta where
  index : Option Nat
  id : Option String
  function : Option FuncDelta
deriving DecidableEq

/-- One streamed delta: optional text content plus a list of tool-call
fragments (`delta.tool_calls = None` is modelled as the empty list, which the
`if delta.tool_calls:` guard treats identically). -/
structure StreamDelta where
  content : Option String
  tool_calls : List ToolCallDelta
deriving DecidableEq

/-- One stream chunk, reduced to the fields the source reads. -/
structure Chunk where
  delta : Option StreamDelta
  finish_reason : Option String
deriving DecidableEq

/-- One accumulated tool-call record: the dict
`{"id": "", "name": "", "arguments": ""}` the source appends while padding. -/
structure ToolCallRec where
  id : String
  name : String
  arguments : String
deriving DecidableEq

/-- The freshly appended record: all three fields empty. -/
def emptyRec : ToolCallRec :=
  { id := "", name := "", arguments := "" }

/-- The padding loop `while len(tool_calls) <= tc.index: tool_calls.append({...empty...})`. -/
def padTo (tcs : List ToolCallRec) (i : Nat) : List ToolCallRec :=
  tcs ++ List.replicate (i + 1 - tcs.length) emptyRec

/-- Processing of one tool-call delta fragment: pad the record list up to the
fragment's index, then (each guarded by Python truthiness) overwrite `id`,
overwrite `name`, and append — never overwrite — the `arguments` chunk. -/
def applyTC (tcs : List ToolCallRec) (tc : ToolCallDelta) : List ToolCallRec :=
  match tc.index with
  | none => tcs
  | some i =>
    let tcs := padTo tcs i
    let r := tcs.getD i emptyRec
    let r := if truthy tc.id then { r with id := tc.id.getD "" } else r
    let r :=
      match tc.function with
      | none => r
      | some f =>
        let r := if truthy f.name then { r with name := f.name.getD "" } else r
        if truthy f.arguments then
          { r with arguments := r.arguments ++ f.arguments.getD "" }
        else r
    tcs.set i r

/-- Per-turn mutable state of the consumption loop: the text buffer
`collected_content`, the record list `tool_calls`, and the chunks yielded to
the caller so far (in order). -/
structure TurnState where
  collected_content : String
  tool_calls : List ToolCallRec
  output : List String
deriving DecidableEq

/-- Text handling `if delta.content: collected_content += delta.content; yield delta.content`
(`""` is falsy and is skipped). -/
def applyContent (st : TurnState) (c : Option String) : TurnState :=
  match c with
  | none => st
  | some s =>
    if s.isEmpty then st
    else { st with collected_content := st.collected_content ++ s
                   output := st.output ++ [s] }

/-- Effect of one streamed delta: text first, then each tool-call fragment in
list order. -/
def applyStreamDelta (st : TurnState) (d : StreamDelta) : TurnState :=
  let st := applyContent st d.content
  { st with tool_calls := d.tool_calls.foldl applyTC st.tool_calls }

/-- The `async for chunk in response` loop: skip chunks without a delta;
otherwise apply the delta and stop after the first chunk whose
`finish_reason` is set. -/
def consumeStream : List Chunk → TurnState → TurnState
  | [], st => st
  | c :: cs, st =>
    match c.delta with
    | none => consumeStream cs st
    | some d =>
      let st := applyStreamDelta st d
      if c.finish_reason.isSome then st else consumeStream cs st

/-- The fresh per-turn state (`collected_content = ""`, `tool_calls = []`). -/
def initTurn : TurnState :=
  { collected_content := "", tool_calls := [], output := [] }

/-! ## Parsed argument documents and query construction

`json.loads` is the Python standard library; it is passed into the loop as
an abstract `parse : String → Option JVal` (`none` models a raised
`JSONDecodeError`).  `JVal` models the parsed Python value. -/

/-- A parsed JSON value (numbers restricted to integers: the declared schema
only uses an integer `limit`). -/
inductive JVal where
  | null : JVal
  | bool (b : Bool) : JVal
  | num (n : Int) : JVal
  | str (s : String) : JVal
  | arr (vs : List JVal) : JVal
  | obj (kvs : List (String × JVal)) : JVal

/-- Lookup `dict.get(k)` on the parsed object (a parsed dict has unique keys). -/
def jLookup (kvs : List (String × JVal)) (k : String) : Option JVal :=
  kvs.lookup k

/-- One character of a Python repr string literal, under quote character `q`:
backslash, the quote character, and the common control characters are
escaped.  (Python additionally hex-escapes other non-printable characters;
no string in any theorem below contains one.) -/
def pyEscapeChar (q c : Char) : List Char :=
  if c == '\\' then ['\\', '\\']
  else if c == q then ['\\', q]
  else if c == '\n' then ['\\', 'n']
  else if c == '\r' then ['\\', 'r']
  else if c == '\t' then ['\\', 't']
  else [c]

/-- Python repr() of a string: single-quoted, except double-quoted when the
string contains a single quote but no double quote. -/
def pyReprStr (s : String) : String :=
  let q : Char :=
    if s.data.contains '\'' && !(s.data.contains '"') then '"' else '\''
  String.mk (q :: s.data.flatMap (pyEscapeChar q) ++ [q])

mutual

/-- Python repr() of a parsed JSON value: `None`, `True`/`False`, decimal
integers, quoted strings, bracketed lists, braced dicts. -/
def pyRepr : JVal → String
  | .null => "None"
  | .bool b => if b then "True" else "False"
  | .num n => toString n
  | .str s => pyReprStr s
  | .arr vs => "[" ++ pyReprList vs ++ "]"
  | .obj kvs => "\x7b" ++ pyReprPairs kvs ++ "\x7d"

/-- Comma-separated reprs of the elements of a parsed list. -/
def pyReprList : List JVal → String
  | [] => ""
  | [v] => pyRepr v
  | v :: vs => pyRepr v ++ ", " ++ pyReprList vs

/-- Comma-separated `repr(key): repr(value)` items of a parsed dict. -/
def pyReprPairs : List (String × JVal) → String
  | [] => ""
  | [kv] => pyReprStr kv.1 ++ ": " ++ pyRepr kv.2
  | kv :: kvs => pyReprStr kv.1 ++ ": " ++ pyRepr kv.2 ++ ", " ++ pyReprPairs kvs

end

/-- Python str() of a parsed JSON value, as the f-string pattern
`f"%[city]%"` applies it: a top-level string is used as-is (unquoted);
every other value formats as its repr. -/
def pyStr : JVal → String
  | .str s => s
  | v => pyRepr v

/-- Extraction `keywords = args.get("keywords", [])`, then the value's use
in `", ".join(keywords)` and the per-keyword patterns.  `none` models a
raised exception before the progress notice: `args.get` on a non-dict raises
AttributeError, and `join` of `None`, of a number, of a boolean, or of a
list with a non-string element raises TypeError.  A plain string is
iterated character-by-character by Python, and a dict is iterated over its
string keys, hence the `str` and `obj` cases — the program proceeds with
those even though they violate the declared schema. -/
def getKeywords : JVal → Option (List String)
  | .obj kvs =>
    match jLookup kvs "keywords" with
    | none => some []
    | some (.arr vs) =>
      vs.mapM fun v => match v with | .str s => some s | _ => none
    | some (.str s) => some (s.data.map fun c => String.mk [c])
    | some (.obj kvs2) => some (kvs2.map fun kv => kv.1)
    | some _ => none
  | _ => none

/-- Extraction `args.get("city")` as `search_startups` observes it through
`if city:` and the f-string pattern: a Python-falsy value (absent key,
`None`, `""`, `0`, `False`, an empty list or dict) applies no city filter —
modelled as `none` (and `some ""` also applies no filter, via the truthiness
test inside `cityStage`) — while a truthy value interpolates its `str()`
form into the pattern.  This extraction never raises on a dict. -/
def getCity : JVal → Option (Option String)
  | .obj kvs =>
    match jLookup kvs "city" with
    | none => some none
    | some .null => some none
    | some (.str s) => some (some s)
    | some (.num n) => some (if n == 0 then none else some (toString n))
    | some (.bool b) => some (if b then some "True" else none)
    | some (.arr vs) =>
      some (if vs.isEmpty then none else some (pyStr (.arr vs)))
    | some (.obj kvs2) =>
      some (if kvs2.isEmpty then none else some (pyStr (.obj kvs2)))
  | _ => none

/-- Extraction `args.get("limit", 10)` as the LIMIT clause observes it:
`query.limit(None)` — a present `"limit": null` — removes the LIMIT clause
(the inner `none`), Python booleans are the integers 1 and 0, and a string,
list, or dict limit is rejected by the SQL layer, modelled as a raised
error (no theorem below exercises one). -/
def getLimit : JVal → Option (Option Int)
  | .obj kvs =>
    match jLookup kvs "limit" with
    | none => some (some 10)
    | some (.num n) => some (some n)
    | some .null => some none
    | some (.bool b) => some (some (if b then 1 else 0))
    | some _ => none
  | _ => none

/-- The query actually handed to the executor; `limit = none` means the
LIMIT clause is absent. -/
structure SearchQuery where
  keywords : List String
  city : Option String
  limit : Option Int
deriving DecidableEq

/-- The pure in-memory executor: `search_startups` over table contents `db`,
wrapped as a query runner.  An absent limit returns every matching row;
Postgres rejects a negative LIMIT, which is the one way the pure executor
itself fails. -/
def pureExec (db : List Company) : SearchQuery → Option (List SearchResult) :=
  fun q =>
    match q.limit with
    | none => some (search_startups_nolimit db q.keywords q.city)
    | some l =>
      if l < 0 then none
      else some (search_startups db q.keywords q.city l.toNat)

/-! ## The transcript (`openai_messages`) -/

/-- One entry of the assistant message's `tool_calls` list:
`{"id": ..., "type": "function", "function": {"name": ..., "arguments": ...}}`
(the constant `"type"` tag is omitted). -/
structure ToolDesc where
  id : String
  name : String
  arguments : String
deriving DecidableEq

/-- One transcript message.  Caller-supplied messages and the system prompt
are plain `{"role": ..., "content": ...}` dicts; the loop appends assistant
messages carrying tool-call descriptors and tool messages carrying a
`tool_call_id`.  A tool message's content is `json.dumps(results)` in the
source; the serialized payload is kept structured here (`json.dumps` is the
standard library and no claim concerns its byte-level output). -/
inductive OMsg where
  | plain (role : String) (content : String) : OMsg
  | assistant (content : Option String) (tool_calls : List ToolDesc) : OMsg
  | tool (tool_call_id : String) (results : List SearchResult) : OMsg
deriving DecidableEq

/-- The fixed system instruction seeded at the front of the transcript. -/
def SYSTEM_PROMPT : String :=
  "You are a startup search assistant with access to a database of B2B SaaS startups from 2021-2022.

When users ask about startups:
1. Use the search_startups function to query the database with relevant keywords
2. Analyze the results against the user's specific needs
3. Return your findings as a markdown table with columns: Company Name, Description, Website, Location, Justification

For explicit searches like \"fintech startups in New York\", use keywords like [\"fintech\", \"finance\"] and city=\"New York\".

For higher-order queries like \"suggest additions to my portfolio\", think about related industries and technologies.

Always explain why each startup matches the user's query in the Justification column.

IMPORTANT FORMATTING RULES:
- Use proper markdown with blank lines between paragraphs
- Do NOT write commentary between tool calls - just make the tool calls silently
- After all searches are complete, provide ONE final summary with the markdown table
- Keep your response concise and well-formatted"

/-- One part of an inbound message (`MessagePart`). -/
structure MessagePart where
  type : String
  text : Option String
deriving DecidableEq

/-- One inbound message (`Message` of the request body). -/
structure MessageIn where
  role : String
  parts : List MessagePart
deriving DecidableEq

/-- The route helper `extract_text`: the space-join of the texts of the parts tagged
`"text"` whose text is truthy. -/
def extract_text (m : MessageIn) : String :=
  String.intercalate " "
    (m.parts.filterMap fun p =>
      if p.type == "text" && truthy p.text then some (p.text.getD "") else none)

/-- Transcript initialization in `run_agent`: the system prompt followed by
the caller's messages as `{"role": ..., "content": ...}` dicts. -/
def initMessages (caller : List (String × String)) : List OMsg :=
  OMsg.plain "system" SYSTEM_PROMPT ::
    caller.map fun rc => OMsg.plain rc.1 rc.2

/-- The messages the `/chat` route hands to `run_agent` for a request body. -/
def chatInit (ms : List MessageIn) : List OMsg :=
  initMessages (ms.map fun m => (m.role, extract_text m))

/-! ## Tool-call execution phase of one turn -/

/-- The test `if tool_calls and tool_calls[0].get("name"):` — the continuation test
looks only at the record at index 0. -/
def headNamed (tcs : List ToolCallRec) : Bool :=
  match tcs with
  | [] => false
  | r :: _ => !r.name.isEmpty

/-- The descriptor list of the appended assistant message:
`[... for tc in tool_calls if tc.get("name")]` — only named records, in
index order. -/
def namedDescs (tcs : List ToolCallRec) : List ToolDesc :=
  (tcs.filter fun r => !r.name.isEmpty).map fun r =>
    { id := r.id, name := r.name, arguments := r.arguments }

/-- Python coalescing `collected_content or None`. -/
def contentOpt (s : String) : Option String :=
  if s.isEmpty then none else some s

/-- The progress notice yielded before each search. -/
def mkNotice (keywords : List String) : String :=
  "\n\n🔍 *Searching database for: " ++ String.intercalate ", " keywords ++
    "...*\n\n"

/-- Execution of one finalized record inside the `for tc in tool_calls`
loop.  Returns the text chunks yielded, the tool messages appended, and
whether execution may proceed (`false` models an uncaught exception
propagating out of the generator).  An unnamed record is skipped
(`continue`).  Failure points, in source order: `json.loads` raises (no
notice yielded); the keyword extraction raises (no notice yielded); the
notice is yielded; the city/limit extraction or the storage query raises
(notice already delivered, no tool message appended). -/
def execCall (parse : String → Option JVal)
    (exec : SearchQuery → Option (List SearchResult)) (r : ToolCallRec) :
    List String × List OMsg × Bool :=
  if r.name.isEmpty then ([], [], true)
  else
    match parse r.arguments with
    | none => ([], [], false)
    | some j =>
      match getKeywords j with
      | none => ([], [], false)
      | some kws =>
        match getCity j, getLimit j with
        | some city, some lim =>
          match exec { keywords := kws, city := city, limit := lim } with
          | some results =>
            ([mkNotice kws], [OMsg.tool r.id results], true)
          | none => ([mkNotice kws], [], false)
        | _, _ => ([mkNotice kws], [], false)

/-- The whole `for tc in tool_calls` loop: strictly sequential, each record's
yield and transcript append completing before the next record starts, and an
exception abandoning every later record. -/
def execCalls (parse : String → Option JVal)
    (exec : SearchQuery → Option (List SearchResult)) :
    List ToolCallRec → List String × List OMsg × Bool
  | [] => ([], [], true)
  | r :: rs =>
    let c := execCall parse exec r
    if c.2.2 then
      let rest := execCalls parse exec rs
      (c.1 ++ rest.1, c.2.1 ++ rest.2.1, rest.2.2)
    else (c.1, c.2.1, false)

/-! ## The agent loop -/

/-- Result of one turn: continue the `while True` loop, finish (`break`), or
abort with an uncaught exception. -/
inductive StepRes where
  | continueLoop : StepRes
  | finished : StepRes
  | aborted : StepRes
deriving DecidableEq

/-- Observable outcome of one turn of the loop body. -/
structure StepOut where
  messages : List OMsg
  output : List String
  res : StepRes
deriving DecidableEq

/-- One iteration of the `while True` body, after the model invocation
produced the chunk stream `chunks`: consume the stream, then either append
the assistant message and run the tool calls, or break. -/
def stepTurn (parse : String → Option JVal)
    (exec : SearchQuery → Option (List SearchResult)) (msgs : List OMsg)
    (chunks : List Chunk) : StepOut :=
  let st := consumeStream chunks initTurn
  if headNamed st.tool_calls then
    let amsg := OMsg.assistant (contentOpt st.collected_content)
      (namedDescs st.tool_calls)
    let c := execCalls parse exec st.tool_calls
    { messages := msgs ++ amsg :: c.2.1
      output := st.output ++ c.1
      res := if c.2.2 then .continueLoop else .aborted }
  else
    { messages := msgs, output := st.output, res := .finished }

/-- How a whole run ends: normal termination (`break`), an uncaught
exception, or the supplied list of provider streams was exhausted while the
loop was about to invoke the model again (the run is observed only up to
that point). -/
inductive RunOutcome where
  | done : RunOutcome
  | aborted : RunOutcome
  | outOfStreams : RunOutcome
deriving DecidableEq

/-- Observable result of a run: final transcript, all text yielded, outcome,
and the number of model invocations performed. -/
structure RunResult where
  messages : List OMsg
  output : List String
  outcome : RunOutcome
  invocations : Nat
deriving DecidableEq

/-- The `while True` loop of `run_agent`.  Each element of `streams` is the
chunk stream produced by one model invocation; invoking the model consumes
the next element. -/
def runAgent (parse : String → Option JVal)
    (exec : SearchQuery → Option (List SearchResult)) :
    List (List Chunk) → List OMsg → List String → RunResult
  | [], msgs, out =>
    { messages := msgs, output := out, outcome := .outOfStreams,
      invocations := 0 }
  | s :: rest, msgs, out =>
    let t := stepTurn parse exec msgs s
    match t.res with
    | .finished =>
      { messages := t.messages, output := out ++ t.output, outcome := .done,
        invocations := 1 }
    | .aborted =>
      { messages := t.messages, output := out ++ t.output,
        outcome := .aborted, invocations := 1 }
    | .continueLoop =>
      let r := runAgent parse exec rest t.messages (out ++ t.output)
      { messages := r.messages, output := r.output, outcome := r.outcome,
        invocations := r.invocations + 1 }

/-! ## Derived notions used by the theorem statements -/

/-- A fragment carrying only an arguments chunk for index `i` — the shape
singled out by the accumulator's concatenation guarantee. -/
def argDelta (i : Nat) (s : String) : ToolCallDelta :=
  { index := some i, id := none,
    function := some { name := none, arguments := some s } }

/-- Concatenation of a list of chunks, in arrival order. -/
def concatStrings (cs : List String) : String :=
  cs.foldr (· ++ ·) ""

/-- The length the record list reaches after a fragment batch: one past the
largest index seen, starting from `n`. -/
def maxIdxFrom (n : Nat) (ds : List ToolCallDelta) : Nat :=
  ds.foldl (fun a d => match d.index with | none => a | some i => max a (i + 1)) n

/-- Recognizer for tool messages appended by the loop. -/
def isToolMsg : OMsg → Bool
  | .tool _ _ => true
  | _ => false

/-- The `tool_call_id`s of the tool messages of a message list, in order. -/
def toolIds (ms : List OMsg) : List String :=
  ms.filterMap fun m => match m with | .tool i _ => some i | _ => none

/-- The ids carried by an assistant message's descriptor list. -/
def descIds (ds : List ToolDesc) : List String :=
  ds.map fun d => d.id

/-- The transcript invariant of the data model: scanning left to right with
`cur` = the descriptor ids of the nearest preceding assistant message, every
tool message's `tool_call_id` must occur in `cur`. -/
def okFrom (cur : List String) : List OMsg → Bool
  | [] => true
  | OMsg.plain _ _ :: rest => okFrom cur rest
  | OMsg.assistant _ ds :: rest => okFrom (descIds ds) rest
  | OMsg.tool tid _ :: rest => cur.contains tid && okFrom cur rest

/-- The descriptor-id context after scanning a message list. -/
def curAfter (cur : List String) : List OMsg → List String
  | [] => cur
  | OMsg.assistant _ ds :: rest => curAfter (descIds ds) rest
  | _ :: rest => curAfter cur rest

/-! ## Concrete inputs used by counterexamples and witnesses -/

/-- A stored row whose only populated text field is the name `"abc"`. -/
def compAbc : Company :=
  { created_at := 0, id := 5, company_name := some "abc", company_id := none,
    city := none, description := none, website_url := none,
    website_text := none }

/-- A stored row located in Boston. -/
def compBoston : Company :=
  { created_at := 0, id := 6, company_name := some "X", company_id := none,
    city := some "Boston", description := none, website_url := none,
    website_text := none }

/-- A stored row whose `company_name` column is NULL. -/
def compNoName : Company :=
  { created_at := 0, id := 7, company_name := none, company_id := none,
    city := some "Austin", description := none, website_url := none,
    website_text := none }

/-- A fully populated stored row. -/
def compFull : Company :=
  { created_at := 0, id := 8, company_name := some "Acme Fintech",
    company_id := some 42, city := some "New York",
    description := some "payments infrastructure",
    website_url := some "https://acme.example",
    website_text := some "acme fintech payments platform" }

/-- A one-chunk provider stream whose only tool-call fragment targets index
1, so index 0 is created by padding and keeps an empty name. -/
def streamIdx1 : List Chunk :=
  [⟨some ⟨none, [⟨some 1, some "call_9",
    some ⟨some "search_startups", some "argtext"⟩⟩]⟩, some "tool_calls"⟩]

/-- Same shape as `streamIdx1` with a different call id, used for the
per-turn counterexample. -/
def streamIdx1b : List Chunk :=
  [⟨some ⟨none, [⟨some 1, some "call_7",
    some ⟨some "search_startups", some "args7"⟩⟩]⟩, some "tool_calls"⟩]

/-- A one-chunk provider stream with text `"Hello"` and one named tool-call
fragment at index 0 whose arguments are the string `"noargs"`. -/
def streamIdx0 : List Chunk :=
  [⟨some ⟨some "Hello", [⟨some 0, some "call_1",
    some ⟨some "search_startups", some "noargs"⟩⟩]⟩, some "tool_calls"⟩]

/-- A finalized record whose arguments string no parser oracle accepts. -/
def recBad : ToolCallRec :=
  { id := "call_x", name := "search_startups", arguments := "bad" }

/-- A finalized record carrying the arguments string `"noargs"`. -/
def recNoargs : ToolCallRec :=
  { id := "call_a", name := "search_startups", arguments := "noargs" }

/-- A parser oracle that recognizes exactly the string `"noargs"` and parses
it to the empty JSON object. -/
def parseNoargs : String → Option JVal :=
  fun s => if s == "noargs" then some (JVal.obj []) else none

/-- A parser oracle that fails on every input (every argument string raises
`JSONDecodeError`). -/
def parseFail : String → Option JVal :=
  fun _ => none

/-- A storage oracle whose every query raises. -/
def execFail : SearchQuery → Option (List SearchResult) :=
  fun _ => none

/-- Modelled from the spec: the declared schema of the tool arguments — an
object whose `keywords` is an array of strings, whose optional `city` is a
string, and whose optional `limit` is an integer.  The program never
evaluates this predicate; it exists to state that the program does not
enforce the schema. -/
def schemaValid : JVal → Bool
  | .obj kvs =>
    (match jLookup kvs "keywords" with
      | some (.arr vs) =>
        vs.all fun v => match v with | .str _ => true | _ => false
      | _ => false) &&
    (match jLookup kvs "city" with
      | none => true
      | some (.str _) => true
      | some _ => false) &&
    (match jLookup kvs "limit" with
      | none => true
      | some (.num _) => true
      | some _ => false)
  | _ => false

/-- A parsed arguments document whose `keywords` value is a string —
JSON-valid but schema-invalid. -/
def docStrKeywords : JVal :=
  JVal.obj [("keywords", JVal.str "ab")]

/-- A parser oracle recognizing exactly `"strkw"` as `docStrKeywords`. -/
def parseStrKeywords : String → Option JVal :=
  fun s => if s == "strkw" then some docStrKeywords else none

/-- A finalized record carrying the arguments string `"strkw"`. -/
def recStrKeywords : ToolCallRec :=
  { id := "call_s", name := "search_startups", arguments := "strkw" }

/-- A parsed arguments document whose `limit` value is a string the SQL
layer rejects. -/
def docBadLimit : JVal :=
  JVal.obj [("keywords", JVal.arr []), ("limit", JVal.str "x")]

/-- A parser oracle recognizing exactly `"badlimit"` as `docBadLimit`. -/
def parseBadLimit : String → Option JVal :=
  fun s => if s == "badlimit" then some docBadLimit else none

/-- A finalized record carrying the arguments string `"badlimit"`. -/
def recBadLimit : ToolCallRec :=
  { id := "call_l", name := "search_startups", arguments := "badlimit" }

/-! # Lemmas -/

theorem length_padTo (l : List ToolCallRec) (i : Nat) :
    (padTo l i).length = max l.length (i + 1) := by
  simp only [padTo, List.length_append, List.length_replicate]
  omega

theorem lt_length_padTo (l : List ToolCallRec) (i : Nat) :
    i < (padTo l i).length := by
  rw [length_padTo]; omega

theorem padTo_of_lt {l : List ToolCallRec} {i : Nat} (h : i < l.length) :
    padTo l i = l := by
  simp [padTo, Nat.sub_eq_zero_of_le h]

theorem getD_padTo (l : List ToolCallRec) (i j : Nat) :
    (padTo l i).getD j emptyRec = l.getD j emptyRec := by
  simp only [padTo, List.getD_eq_getElem?_getD, List.getElem?_append,
    List.getElem?_replicate]
  by_cases h : j < l.length
  · simp [h]
  · rw [if_neg h, List.getElem?_eq_none (by omega)]
    split <;> rfl

theorem getD_set_self (l : List ToolCallRec) (i : Nat) (r : ToolCallRec)
    (h : i < l.length) : (l.set i r).getD i emptyRec = r := by
  rw [List.getD_eq_getElem?_getD, List.getElem?_set_self h]
  rfl

theorem truthy_none : truthy none = false := rfl

theorem truthy_some (s : String) : truthy (some s) = !s.isEmpty := rfl

theorem isEmpty_empty_str : "".isEmpty = true := rfl

theorem applyTC_argDelta (l : List ToolCallRec) (i : Nat) (s : String) :
    applyTC l (argDelta i s) =
      (padTo l i).set i
        { (padTo l i).getD i emptyRec with
          arguments := ((padTo l i).getD i emptyRec).arguments ++ s } := by
  cases hs : s.isEmpty with
  | true =>
    have hs' : s = "" := (String.isEmpty_iff s).mp hs
    subst hs'
    simp [applyTC, argDelta, truthy_none, truthy_some, isEmpty_empty_str,
      String.append_empty]
  | false =>
    simp [applyTC, argDelta, truthy_none, truthy_some, hs]

theorem applyTC_argDelta_comp (l : List ToolCallRec) (i : Nat) (a b : String) :
    applyTC (applyTC l (argDelta i a)) (argDelta i b) =
      applyTC l (argDelta i (a ++ b)) := by
  rw [applyTC_argDelta l i a, applyTC_argDelta, applyTC_argDelta l i (a ++ b)]
  have hi : i < ((padTo l i).set i
      { (padTo l i).getD i emptyRec with
        arguments := ((padTo l i).getD i emptyRec).arguments ++ a }).length := by
    rw [List.length_set]; exact lt_length_padTo l i
  rw [padTo_of_lt hi, getD_set_self _ _ _ (lt_length_padTo l i), List.set_set,
    String.append_assoc]

/-- C2: for every non-empty sequence of argument chunks delivered for one
index, folding the accumulator over the chunk fragments produces exactly the
state produced by one fragment carrying the in-order concatenation of the
chunks: the reconstructed `arguments` string is byte-identical to the
single-fragment one (and therefore parses to the same document). -/
theorem arguments_concat_eq_single (i : Nat) (c : String) (cs : List String)
    (tcs : List ToolCallRec) :
    ((c :: cs).map (argDelta i)).foldl applyTC tcs =
      applyTC tcs (argDelta i (concatStrings (c :: cs))) := by
  induction cs generalizing c tcs with
  | nil => simp [concatStrings, String.append_empty]
  | cons c2 cs ih =>
    have : ((c :: c2 :: cs).map (argDelta i)).foldl applyTC tcs =
        ((c2 :: cs).map (argDelta i)).foldl applyTC (applyTC tcs (argDelta i c)) := by
      simp
    rw [this, ih c2 (applyTC tcs (argDelta i c)), applyTC_argDelta_comp]
    rfl

theorem length_applyTC (tcs : List ToolCallRec) (tc : ToolCallDelta) :
    (applyTC tcs tc).length =
      match tc.index with
      | none => tcs.length
      | some i => max tcs.length (i + 1) := by
  rcases tc with ⟨idx, tid, f⟩
  cases idx with
  | none => rfl
  | some i => simp [applyTC, List.length_set, length_padTo]

theorem length_foldl_applyTC (ds : List ToolCallDelta) :
    ∀ tcs : List ToolCallRec,
      (ds.foldl applyTC tcs).length = maxIdxFrom tcs.length ds := by
  induction ds with
  | nil => intro tcs; rfl
  | cons d ds ih =>
    intro tcs
    have : maxIdxFrom tcs.length (d :: ds) =
        maxIdxFrom (applyTC tcs d).length ds := by
      rw [length_applyTC]
      rcases d with ⟨idx, tid, f⟩
      cases idx <;> rfl
    rw [List.foldl_cons, ih, this]

theorem getD_applyTC_ne (tcs : List ToolCallRec) (tc : ToolCallDelta)
    (j : Nat) (h : tc.index ≠ some j) :
    (applyTC tcs tc).getD j emptyRec = tcs.getD j emptyRec := by
  rcases tc with ⟨idx, tid, f⟩
  cases idx with
  | none => rfl
  | some i =>
    have hij : i ≠ j := fun e => h (by simp [e])
    simp only [applyTC]
    rw [List.getD_eq_getElem?_getD, List.getElem?_set_ne hij,
      ← List.getD_eq_getElem?_getD, getD_padTo]

theorem getD_foldl_applyTC_ne (ds : List ToolCallDelta) :
    ∀ (tcs : List ToolCallRec) (j : Nat), (∀ d ∈ ds, d.index ≠ some j) →
      (ds.foldl applyTC tcs).getD j emptyRec = tcs.getD j emptyRec := by
  induction ds with
  | nil => intro tcs j _; rfl
  | cons d ds ih =>
    intro tcs j h
    rw [List.foldl_cons, ih (applyTC tcs d) j (fun x hx => h x (by simp [hx])),
      getD_applyTC_ne tcs d j (h d (by simp))]

/-! ### Execution-phase lemmas -/

theorem execCall_unnamed (p : String → Option JVal)
    (e : SearchQuery → Option (List SearchResult)) (r : ToolCallRec)
    (h : r.name.isEmpty = true) : execCall p e r = ([], [], true) := by
  simp [execCall, h]

theorem execCalls_cons_unnamed (p : String → Option JVal)
    (e : SearchQuery → Option (List SearchResult)) (r : ToolCallRec)
    (rs : List ToolCallRec) (h : r.name.isEmpty = true) :
    execCalls p e (r :: rs) = execCalls p e rs := by
  simp [execCalls, execCall_unnamed p e r h]

theorem execCall_parse_fail (p : String → Option JVal)
    (e : SearchQuery → Option (List SearchResult)) (r : ToolCallRec)
    (hn : r.name.isEmpty = false) (hp : p r.arguments = none) :
    execCall p e r = ([], [], false) := by
  simp [execCall, hn, hp]

theorem execCall_kw_fail (p : String → Option JVal)
    (e : SearchQuery → Option (List SearchResult)) (r : ToolCallRec)
    (j : JVal) (hn : r.name.isEmpty = false) (hp : p r.arguments = some j)
    (hk : getKeywords j = none) : execCall p e r = ([], [], false) := by
  simp [execCall, hn, hp, hk]

theorem execCall_limit_fail (p : String → Option JVal)
    (e : SearchQuery → Option (List SearchResult)) (r : ToolCallRec)
    (j : JVal) (kws : List String) (city : Option String)
    (hn : r.name.isEmpty = false) (hp : p r.arguments = some j)
    (hk : getKeywords j = some kws) (hc : getCity j = some city)
    (hl : getLimit j = none) : execCall p e r = ([mkNotice kws], [], false) := by
  simp [execCall, hn, hp, hk, hc, hl]

theorem execCall_exec_fail (p : String → Option JVal)
    (e : SearchQuery → Option (List SearchResult)) (r : ToolCallRec)
    (j : JVal) (kws : List String) (city : Option String) (lim : Option Int)
    (hn : r.name.isEmpty = false) (hp : p r.arguments = some j)
    (hk : getKeywords j = some kws) (hc : getCity j = some city)
    (hl : getLimit j = some lim)
    (he : e { keywords := kws, city := city, limit := lim } = none) :
    execCall p e r = ([mkNotice kws], [], false) := by
  simp [execCall, hn, hp, hk, hc, hl, he]

theorem execCall_success (p : String → Option JVal)
    (e : SearchQuery → Option (List SearchResult)) (r : ToolCallRec)
    (j : JVal) (kws : List String) (city : Option String) (lim : Option Int)
    (results : List SearchResult) (hn : r.name.isEmpty = false)
    (hp : p r.arguments = some j) (hk : getKeywords j = some kws)
    (hc : getCity j = some city) (hl : getLimit j = some lim)
    (he : e { keywords := kws, city := city, limit := lim } = some results) :
    execCall p e r = ([mkNotice kws], [OMsg.tool r.id results], true) := by
  simp [execCall, hn, hp, hk, hc, hl, he]

theorem execCall_shape (p : String → Option JVal)
    (e : SearchQuery → Option (List SearchResult)) (r : ToolCallRec) :
    (r.name.isEmpty = true ∧ execCall p e r = ([], [], true)) ∨
    (r.name.isEmpty = false ∧
      ∃ o res, execCall p e r = (o, [OMsg.tool r.id res], true)) ∨
    (∃ o, execCall p e r = (o, [], false)) := by
  cases hn : r.name.isEmpty with
  | true => exact Or.inl ⟨rfl, execCall_unnamed p e r hn⟩
  | false =>
    right
    cases hp : p r.arguments with
    | none => exact Or.inr ⟨[], execCall_parse_fail p e r hn hp⟩
    | some j =>
      cases hk : getKeywords j with
      | none => exact Or.inr ⟨[], execCall_kw_fail p e r j hn hp hk⟩
      | some kws =>
        cases hc : getCity j with
        | none =>
          refine Or.inr ⟨[mkNotice kws], ?_⟩
          simp [execCall, hn, hp, hk, hc]
        | some city =>
          cases hl : getLimit j with
          | none =>
            exact Or.inr
              ⟨[mkNotice kws], execCall_limit_fail p e r j kws city hn hp hk hc hl⟩
          | some lim =>
            cases he : e { keywords := kws, city := city, limit := lim } with
            | none =>
              exact Or.inr ⟨[mkNotice kws],
                execCall_exec_fail p e r j kws city lim hn hp hk hc hl he⟩
            | some results =>
              exact Or.inl ⟨rfl, [mkNotice kws], results,
                execCall_success p e r j kws city lim results hn hp hk hc hl he⟩

theorem execCalls_cons (p : String → Option JVal)
    (e : SearchQuery → Option (List SearchResult)) (r : ToolCallRec)
    (rs : List ToolCallRec) :
    execCalls p e (r :: rs) =
      (let c := execCall p e r
       if c.2.2 then
         let rest := execCalls p e rs
         (c.1 ++ rest.1, c.2.1 ++ rest.2.1, rest.2.2)
       else (c.1, c.2.1, false)) := rfl

theorem execCalls_cons_fail (p : String → Option JVal)
    (e : SearchQuery → Option (List SearchResult)) (r : ToolCallRec)
    (rs : List ToolCallRec) (o : List String)
    (h : execCall p e r = (o, [], false)) :
    execCalls p e (r :: rs) = (o, [], false) := by
  rw [execCalls_cons, h]
  simp

theorem execCalls_cons_ok (p : String → Option JVal)
    (e : SearchQuery → Option (List SearchResult)) (r : ToolCallRec)
    (rs : List ToolCallRec) (o : List String) (m : List OMsg)
    (h : execCall p e r = (o, m, true)) :
    execCalls p e (r :: rs) =
      (o ++ (execCalls p e rs).1, m ++ (execCalls p e rs).2.1,
        (execCalls p e rs).2.2) := by
  rw [execCalls_cons, h]
  simp

theorem execCalls_append (p : String → Option JVal)
    (e : SearchQuery → Option (List SearchResult)) (xs : List ToolCallRec) :
    ∀ ys : List ToolCallRec,
      execCalls p e (xs ++ ys) =
        (if (execCalls p e xs).2.2 then
          ((execCalls p e xs).1 ++ (execCalls p e ys).1,
            (execCalls p e xs).2.1 ++ (execCalls p e ys).2.1,
            (execCalls p e ys).2.2)
         else execCalls p e xs) := by
  induction xs with
  | nil => intro ys; simp [execCalls]
  | cons x xs ih =>
    intro ys
    rw [List.cons_append, execCalls_cons, execCalls_cons p e x xs]
    cases hc : (execCall p e x).2.2 with
    | false => simp [hc]
    | true =>
      simp only [hc, if_true, ih ys]
      cases ho : (execCalls p e xs).2.2 <;> simp [ho, List.append_assoc]

theorem execCalls_ok_ids (p : String → Option JVal)
    (e : SearchQuery → Option (List SearchResult)) :
    ∀ (rs : List ToolCallRec) (o : List String) (m : List OMsg),
      execCalls p e rs = (o, m, true) →
      toolIds m = ((rs.filter fun r => !r.name.isEmpty).map fun r => r.id) ∧
      m.all isToolMsg = true ∧
      m.length = ((rs.filter fun r => !r.name.isEmpty)).length := by
  intro rs
  induction rs with
  | nil =>
    intro o m h
    have hm : m = [] := by
      have := congrArg (fun t => t.2.1) h
      simpa [execCalls] using this.symm
    subst hm
    simp [toolIds]
  | cons r rs ih =>
    intro o m h
    rcases execCall_shape p e r with ⟨hn, hc⟩ | ⟨hn, o1, res, hc⟩ | ⟨o1, hc⟩
    · rw [execCalls_cons_ok p e r rs _ _ hc] at h
      have hm : m = (execCalls p e rs).2.1 := by
        have := congrArg (fun t => t.2.1) h
        simpa using this.symm
      have hk : (execCalls p e rs).2.2 = true := congrArg (fun t => t.2.2) h
      have hrs := ih (execCalls p e rs).1 (execCalls p e rs).2.1
        (show execCalls p e rs =
          ((execCalls p e rs).1, (execCalls p e rs).2.1, true) by rw [← hk])
      have hname : (!r.name.isEmpty) = false := by simp [hn]
      rw [hm]
      simpa [List.filter_cons, hname] using hrs
    · rw [execCalls_cons_ok p e r rs _ _ hc] at h
      have hm : m = OMsg.tool r.id res :: (execCalls p e rs).2.1 := by
        have := congrArg (fun t => t.2.1) h
        simpa using this.symm
      have hk : (execCalls p e rs).2.2 = true := congrArg (fun t => t.2.2) h
      have hrs := ih (execCalls p e rs).1 (execCalls p e rs).2.1
        (show execCalls p e rs =
          ((execCalls p e rs).1, (execCalls p e rs).2.1, true) by rw [← hk])
      have hname : (!r.name.isEmpty) = true := by simp [hn]
      rw [hm]
      simp only [List.filter_cons, hname, if_true, List.map_cons,
        List.length_cons, toolIds, List.filterMap_cons]
      refine ⟨?_, ?_, ?_⟩
      · simpa [toolIds] using hrs.1
      · simpa [isToolMsg] using hrs.2.1
      · simpa using hrs.2.2
    · rw [execCalls_cons_fail p e r rs o1 hc] at h
      have : False := by
        have := congrArg (fun t => t.2.2) h
        simp at this
      exact this.elim

theorem toolIds_cons_tool (tid : String) (res : List SearchResult)
    (rest : List OMsg) :
    toolIds (OMsg.tool tid res :: rest) = tid :: toolIds rest := rfl

theorem execCalls_ids_sub (p : String → Option JVal)
    (e : SearchQuery → Option (List SearchResult)) :
    ∀ (rs : List ToolCallRec) (o : List String) (m : List OMsg) (ok : Bool),
      execCalls p e rs = (o, m, ok) →
      m.all isToolMsg = true ∧
      ∀ i ∈ toolIds m,
        i ∈ (rs.filter fun r => !r.name.isEmpty).map fun r => r.id := by
  intro rs
  induction rs with
  | nil =>
    intro o m ok h
    have hm : m = [] := by
      have := congrArg (fun t => t.2.1) h
      simpa [execCalls] using this.symm
    subst hm
    simp [toolIds]
  | cons r rs ih =>
    intro o m ok h
    rcases execCall_shape p e r with ⟨hn, hc⟩ | ⟨hn, o1, res, hc⟩ | ⟨o1, hc⟩
    · rw [execCalls_cons_ok p e r rs _ _ hc] at h
      have hm : m = (execCalls p e rs).2.1 := by
        have := congrArg (fun t => t.2.1) h
        simpa using this.symm
      have hrs := ih (execCalls p e rs).1 (execCalls p e rs).2.1
        (execCalls p e rs).2.2 rfl
      have hname : (!r.name.isEmpty) = false := by simp [hn]
      rw [hm]
      simpa [List.filter_cons, hname] using hrs
    · rw [execCalls_cons_ok p e r rs _ _ hc] at h
      have hm : m = OMsg.tool r.id res :: (execCalls p e rs).2.1 := by
        have := congrArg (fun t => t.2.1) h
        simpa using this.symm
      have hrs := ih (execCalls p e rs).1 (execCalls p e rs).2.1
        (execCalls p e rs).2.2 rfl
      have hname : (!r.name.isEmpty) = true := by simp [hn]
      rw [hm]
      constructor
      · simpa [isToolMsg] using hrs.1
      · intro i hi
        rw [toolIds_cons_tool] at hi
        simp only [List.filter_cons, hname, if_true, List.map_cons,
          List.mem_cons]
        rcases List.mem_cons.mp hi with hi | hi
        · exact Or.inl hi
        · exact Or.inr (hrs.2 i hi)
    · rw [execCalls_cons_fail p e r rs o1 hc] at h
      have hm : m = [] := by
        have := congrArg (fun t => t.2.1) h
        simpa using this.symm
      subst hm
      simp [toolIds]

theorem okFrom_append (xs : List OMsg) :
    ∀ (cur : List String) (ys : List OMsg),
      okFrom cur (xs ++ ys) = (okFrom cur xs && okFrom (curAfter cur xs) ys) := by
  induction xs with
  | nil => intro cur ys; simp [okFrom, curAfter]
  | cons x xs ih =>
    intro cur ys
    cases x with
    | plain role content => simp [okFrom, curAfter, ih]
    | assistant content ds => simp [okFrom, curAfter, ih]
    | tool tid res =>
      have h1 : okFrom cur ((OMsg.tool tid res :: xs) ++ ys) =
          (cur.contains tid && okFrom cur (xs ++ ys)) := rfl
      have h2 : okFrom cur (OMsg.tool tid res :: xs) =
          (cur.contains tid && okFrom cur xs) := rfl
      have h3 : curAfter cur (OMsg.tool tid res :: xs) = curAfter cur xs := rfl
      rw [h1, h2, h3, ih cur ys, Bool.and_assoc]

theorem okFrom_tools (m : List OMsg) :
    ∀ cur : List String, m.all isToolMsg = true →
      (∀ i ∈ toolIds m, cur.contains i = true) → okFrom cur m = true := by
  induction m with
  | nil => intro cur _ _; rfl
  | cons x m ih =>
    intro cur hall hids
    cases x with
    | plain role content => simp [isToolMsg] at hall
    | assistant content ds => simp [isToolMsg] at hall
    | tool tid res =>
      simp only [List.all_cons, Bool.and_eq_true] at hall
      have h1 : cur.contains tid = true :=
        hids tid (by rw [toolIds_cons_tool]; exact List.mem_cons_self tid _)
      have h2 : okFrom cur m = true :=
        ih cur hall.2 (fun i hi =>
          hids i (by rw [toolIds_cons_tool]; exact List.mem_cons_of_mem _ hi))
      have heq : okFrom cur (OMsg.tool tid res :: m) =
          (cur.contains tid && okFrom cur m) := rfl
      rw [heq, h1, h2]
      rfl

theorem descIds_namedDescs (tcs : List ToolCallRec) :
    descIds (namedDescs tcs) =
      (tcs.filter fun r => !r.name.isEmpty).map fun r => r.id := by
  simp [descIds, namedDescs, List.map_map]

theorem okFrom_plains (l : List (String × String)) :
    ∀ cur : List String,
      okFrom cur (l.map fun rc => OMsg.plain rc.1 rc.2) = true := by
  induction l with
  | nil => intro cur; rfl
  | cons x l ih => intro cur; simpa [okFrom] using ih cur

theorem okFrom_initMessages (caller : List (String × String)) :
    okFrom [] (initMessages caller) = true := by
  simpa [initMessages, okFrom] using okFrom_plains caller []

theorem stepTurn_okFrom (p : String → Option JVal)
    (e : SearchQuery → Option (List SearchResult)) (msgs : List OMsg)
    (chunks : List Chunk) (h : okFrom [] msgs = true) :
    okFrom [] (stepTurn p e msgs chunks).messages = true := by
  rw [stepTurn]
  cases hh : headNamed (consumeStream chunks initTurn).tool_calls with
  | false => simpa [hh] using h
  | true =>
    simp only [hh, if_true]
    rw [okFrom_append, h, Bool.true_and]
    have hsub := execCalls_ids_sub p e (consumeStream chunks initTurn).tool_calls
      (execCalls p e (consumeStream chunks initTurn).tool_calls).1
      (execCalls p e (consumeStream chunks initTurn).tool_calls).2.1
      (execCalls p e (consumeStream chunks initTurn).tool_calls).2.2 rfl
    show okFrom _ (OMsg.assistant _ _ :: _) = true
    rw [okFrom]
    apply okFrom_tools _ _ hsub.1
    intro i hi
    have hmem := hsub.2 i hi
    rw [← descIds_namedDescs] at hmem
    exact List.elem_eq_true_of_mem hmem

theorem runAgent_okFrom (p : String → Option JVal)
    (e : SearchQuery → Option (List SearchResult)) (streams : List (List Chunk)) :
    ∀ (msgs : List OMsg) (out : List String), okFrom [] msgs = true →
      okFrom [] (runAgent p e streams msgs out).messages = true := by
  induction streams with
  | nil => intro msgs out h; exact h
  | cons s rest ih =>
    intro msgs out h
    rw [runAgent]
    have hstep := stepTurn_okFrom p e msgs s h
    cases (stepTurn p e msgs s).res with
    | finished => exact hstep
    | aborted => exact hstep
    | continueLoop => exact ih (stepTurn p e msgs s).messages _ hstep

/-! ### Search-executor lemmas -/

theorem mem_search_startups (db : List Company) (kws : List String)
    (city : Option String) (lim : Nat) (r : SearchResult)
    (h : r ∈ search_startups db kws city lim) :
    ∃ comp, comp ∈ db ∧ r = toResult comp ∧
      keywordStage kws comp = true ∧ cityStage city comp = true := by
  rw [search_startups] at h
  rcases List.mem_map.mp h with ⟨comp, hc, hr⟩
  have hc2 := List.take_subset _ _ hc
  rcases List.mem_filter.mp hc2 with ⟨hdb, hpred⟩
  rcases (Bool.and_eq_true _ _).mp hpred with ⟨hkw, hcity⟩
  exact ⟨comp, hdb, hr.symm, hkw, hcity⟩

theorem length_search_startups_le (db : List Company) (kws : List String)
    (city : Option String) (lim : Nat) :
    (search_startups db kws city lim).length ≤ lim := by
  rw [search_startups, List.length_map]
  exact List.length_take_le _ _

theorem length_pyTake_le (s : String) (n : Nat) : (pyTake s n).length ≤ n := by
  have : (pyTake s n).length = (s.data.take n).length := rfl
  rw [this]
  exact List.length_take_le _ _

theorem keywordStage_nil (comp : Company) : keywordStage [] comp = true := rfl

theorem keywordStage_of_ne_nil (kws : List String) (comp : Company)
    (h : kws.isEmpty = false) (hs : keywordStage kws comp = true) :
    kws.any (kwCond comp) = true := by
  simpa [keywordStage, h] using hs

theorem cityStage_none (comp : Company) : cityStage none comp = true := rfl

theorem cityStage_some_empty (comp : Company) :
    cityStage (some "") comp = true := rfl

theorem cityStage_some_of_ne (c : String) (comp : Company) (h : c.isEmpty = false) :
    cityStage (some c) comp = ilikeOpt comp.city ("%" ++ c ++ "%") := by
  simp [cityStage, truthy_some, h]

theorem search_startups_city_none (db : List Company) (kws : List String)
    (lim : Nat) :
    search_startups db kws none lim =
      ((db.filter (keywordStage kws)).take lim).map toResult := by
  simp [search_startups, cityStage_none]

theorem search_startups_city_empty (db : List Company) (kws : List String)
    (lim : Nat) :
    search_startups db kws (some "") lim =
      ((db.filter (keywordStage kws)).take lim).map toResult := by
  simp [search_startups, cityStage_some_empty]

theorem search_startups_kws_nil (db : List Company) (city : Option String)
    (lim : Nat) :
    search_startups db [] city lim =
      ((db.filter (cityStage city)).take lim).map toResult := by
  simp [search_startups, keywordStage_nil]

/-! ### LIKE versus substring for wildcard-free keywords

These lemmas delimit the wildcard divergence: on keywords containing
neither `%` nor `_`, the source's ILIKE filtering is exactly the spec's
case-insensitive substring test. -/

theorem anySuffix_likeMatch_nil : ∀ t : List Char,
    anySuffix (likeMatch []) t = true := by
  intro t
  induction t with
  | nil => rfl
  | cons c s ih => simp [anySuffix, ih]

theorem isPrefixB_nil_right (kw : List Char) : isPrefixB kw [] = kw.isEmpty := by
  cases kw <;> rfl

theorem likeMatch_append_pct (kw : List Char) (h : noWildcards kw = true) :
    ∀ t : List Char, likeMatch (kw ++ ['%']) t = isPrefixB kw t := by
  induction kw with
  | nil =>
    intro t
    have : likeMatch ([] ++ ['%']) t = anySuffix (likeMatch []) t := by
      simp [likeMatch]
    rw [this, anySuffix_likeMatch_nil]
    rfl
  | cons p kw ih =>
    have hh : ((!(p == '%') && !(p == '_')) && noWildcards kw) = true := by
      simpa [noWildcards] using h
    rcases Bool.and_eq_true _ _ |>.mp hh with ⟨hp, hkw⟩
    rcases Bool.and_eq_true _ _ |>.mp hp with ⟨hp1, hp2⟩
    have hp1' : (p == '%') = false := by
      cases hpc : p == '%' <;> simp [hpc] at hp1 ⊢
    have hp2' : (p == '_') = false := by
      cases hpc : p == '_' <;> simp [hpc] at hp2 ⊢
    intro t
    have hstep : likeMatch ((p :: kw) ++ ['%']) t =
        match t with
        | [] => false
        | c :: s => (p == '_' || p == c) && likeMatch (kw ++ ['%']) s := by
      simp only [List.cons_append, likeMatch, hp1', Bool.false_eq_true, if_false]
      all_goals rfl
    cases t with
    | nil => exact hstep.trans rfl
    | cons c s =>
      refine hstep.trans ?_
      show ((p == '_' || p == c) && likeMatch (kw ++ ['%']) s) =
        isPrefixB (p :: kw) (c :: s)
      rw [ih hkw s, hp2']
      simp [isPrefixB]

theorem likeMatch_pct_infix (kw : List Char) (h : noWildcards kw = true) :
    ∀ t : List Char, likeMatch ('%' :: (kw ++ ['%'])) t = isInfixB kw t := by
  intro t
  have hstep : ∀ u : List Char, likeMatch ('%' :: (kw ++ ['%'])) u =
      anySuffix (likeMatch (kw ++ ['%'])) u := by
    intro u
    simp [likeMatch]
  induction t with
  | nil =>
    rw [hstep, anySuffix, likeMatch_append_pct kw h, isPrefixB_nil_right]
    all_goals rfl
  | cons c s ih =>
    rw [hstep, anySuffix, ← hstep s, ih, likeMatch_append_pct kw h]
    all_goals rfl

theorem ilikeB_eq_containsCI (s kw : String)
    (h : noWildcards (lowerChars kw.data) = true) :
    ilikeB s ("%" ++ kw ++ "%") = containsCI_spec s kw := by
  rw [ilikeB, containsCI_spec]
  have hdata : ("%" ++ kw ++ "%").data = '%' :: (kw.data ++ ['%']) := by
    rw [String.data_append, String.data_append]
    rfl
  have hlower : lowerChars ('%' :: (kw.data ++ ['%'])) =
      '%' :: (lowerChars kw.data ++ ['%']) := by
    simp [lowerChars]
  rw [hdata, hlower]
  exact likeMatch_pct_infix (lowerChars kw.data) h (lowerChars s.data)

theorem ilikeOpt_eq_optContainsCI (f : Option String) (kw : String)
    (h : noWildcards (lowerChars kw.data) = true) :
    ilikeOpt f ("%" ++ kw ++ "%") = optContainsCI f kw := by
  cases f with
  | none => rfl
  | some s => exact ilikeB_eq_containsCI s kw h

/-- On a wildcard-free keyword, the source's per-keyword ILIKE disjunction
is exactly the spec's "substring of name, description, or website full
text". -/
theorem kwCond_eq_substring (comp : Company) (kw : String)
    (h : noWildcards (lowerChars kw.data) = true) :
    kwCond comp kw =
      (optContainsCI comp.company_name kw || optContainsCI comp.description kw ||
        optContainsCI comp.website_text kw) := by
  rw [kwCond]
  rw [ilikeOpt_eq_optContainsCI comp.company_name kw h,
    ilikeOpt_eq_optContainsCI comp.description kw h,
    ilikeOpt_eq_optContainsCI comp.website_text kw h]

/-! # Claim theorems -/

/-- C5 (amended): a stored record is returned only if, when `keywords` is
non-empty, at least one keyword matches the record's name, description, or
website full-text field under case-insensitive SQL LIKE semantics with the
pattern `%kw%` (so `%` and `_` inside a keyword act as wildcards); at most
`limit` records are returned; and when `keywords` is empty every record
passes the keyword stage. -/
theorem search_keyword_stage_like (db : List Company) (kws : List String)
    (city : Option String) (lim : Nat) :
    (search_startups db kws city lim).length ≤ lim ∧
    (∀ r ∈ search_startups db kws city lim, ∃ comp, comp ∈ db ∧
      r = toResult comp ∧
      (kws.isEmpty = false → kws.any (kwCond comp) = true)) ∧
    (∀ comp, keywordStage [] comp = true) := by
  refine ⟨length_search_startups_le db kws city lim, ?_,
    fun comp => keywordStage_nil comp⟩
  intro r hr
  rcases mem_search_startups db kws city lim r hr with ⟨comp, hdb, hres, hkw, -⟩
  exact ⟨comp, hdb, hres, fun hne => keywordStage_of_ne_nil kws comp hne hkw⟩

/-- C5 witness: the amended theorem applied to a one-row table matched by
the keyword `"fintech"`. -/
theorem search_keyword_stage_like_witness :
    (search_startups [compFull] ["fintech"] none 10).length ≤ 10 ∧
    (∃ comp, comp ∈ [compFull] ∧ toResult compFull = toResult comp ∧
      ((["fintech"] : List String).isEmpty = false →
        ["fintech"].any (kwCond comp) = true)) :=
  ⟨(search_keyword_stage_like [compFull] ["fintech"] none 10).1,
   (search_keyword_stage_like [compFull] ["fintech"] none 10).2.1
     (toResult compFull) (by decide)⟩

/-- C5 counterexample: the claim's "returned only if at least one keyword
occurs as a case-insensitive substring of name, description, or website
full text" is false.  For the stored row `compAbc` (name `"abc"`,
description and website text NULL) and the query `keywords = ["a_c"]`, the
row is returned — the `_` in the keyword is a live SQL LIKE wildcard that
matches `b` — although `"a_c"` is not a substring of `"abc"` and the other
two fields are absent. -/
theorem search_substring_only_if_fails :
    search_startups [compAbc] ["a_c"] none 10 = [toResult compAbc] ∧
    containsCI_spec "abc" "a_c" = false ∧
    compAbc.description = none ∧ compAbc.website_text = none := by
  decide

/-- C6 (amended): when the query city is present and non-empty, every
returned record's city column matches the LIKE pattern `%city%`
case-insensitively (with `%` and `_` in the query city acting as wildcards),
conjoined with the keyword stage; when the city is absent or empty, no city
filtering is applied. -/
theorem search_city_stage_like (db : List Company) (kws : List String)
    (lim : Nat) :
    (∀ c : String, c.isEmpty = false →
      ∀ r ∈ search_startups db kws (some c) lim, ∃ comp, comp ∈ db ∧
        r = toResult comp ∧ ilikeOpt comp.city ("%" ++ c ++ "%") = true) ∧
    search_startups db kws none lim =
      ((db.filter (keywordStage kws)).take lim).map toResult ∧
    search_startups db kws (some "") lim =
      ((db.filter (keywordStage kws)).take lim).map toResult := by
  refine ⟨?_, search_startups_city_none db kws lim,
    search_startups_city_empty db kws lim⟩
  intro c hc r hr
  rcases mem_search_startups db kws (some c) lim r hr with
    ⟨comp, hdb, hres, -, hcity⟩
  rw [cityStage_some_of_ne c comp hc] at hcity
  exact ⟨comp, hdb, hres, hcity⟩

/-- C6 witness: the amended theorem applied to a one-row Boston table. -/
theorem search_city_stage_like_witness :
    ∃ comp, comp ∈ [compBoston] ∧ toResult compBoston = toResult comp ∧
      ilikeOpt comp.city ("%" ++ "Boston" ++ "%") = true :=
  (search_city_stage_like [compBoston] [] 10).1 "Boston" (by decide)
    (toResult compBoston) (by decide)

/-- C6 counterexample: the claim's "every returned record's city field
contains the query city as a case-insensitive substring" is false: with the
query city `"Bost_n"`, the row with city `"Boston"` is returned (the `_`
LIKE wildcard matches `o`) although `"Bost_n"` is not a substring of
`"Boston"`. -/
theorem search_city_substring_fails :
    search_startups [compBoston] [] (some "Bost_n") 10 = [toResult compBoston] ∧
    containsCI_spec "Boston" "Bost_n" = false := by
  decide

/-- C7 (amended): every returned result's description is the stored
description hard-truncated to at most 300 characters with no marker, and
`description`, `website_url`, `city` are strings defaulting to `""` when the
stored column is absent; `company_name`, however, is passed through
unchanged, so it stays null when the stored name is absent. -/
theorem search_result_fields (db : List Company) (kws : List String)
    (city : Option String) (lim : Nat) (r : SearchResult)
    (h : r ∈ search_startups db kws city lim) :
    ∃ comp, comp ∈ db ∧ r = toResult comp ∧
      r.description.length ≤ 300 ∧
      r.description = pyTake (comp.description.getD "") 300 ∧
      r.website_url = comp.website_url.getD "" ∧
      r.city = comp.city.getD "" ∧
      r.company_name = comp.company_name := by
  rcases mem_search_startups db kws city lim r h with ⟨comp, hdb, hres, -, -⟩
  subst hres
  exact ⟨comp, hdb, rfl, length_pyTake_le _ 300, rfl, rfl, rfl, rfl⟩

/-- C7 witness: the amended theorem applied to a one-row table. -/
theorem search_result_fields_witness :
    ∃ comp, comp ∈ [compFull] ∧ toResult compFull = toResult comp ∧
      (toResult compFull).description.length ≤ 300 ∧
      (toResult compFull).description = pyTake (comp.description.getD "") 300 ∧
      (toResult compFull).website_url = comp.website_url.getD "" ∧
      (toResult compFull).city = comp.city.getD "" ∧
      (toResult compFull).company_name = comp.company_name :=
  search_result_fields [compFull] [] none 10 (toResult compFull) (by decide)

/-- C7 counterexample: the claim's "every field — company_name, description,
website_url, city — is a string, defaulting to the empty string when the
underlying stored field is absent" is false for `company_name`: a row whose
name column is NULL is returned with a null `company_name`, not `""` (the
source defaults the other three fields with `or ""` but passes
`r.company_name` through unchanged). -/
theorem search_result_company_name_null :
    search_startups [compNoName] [] none 10 = [toResult compNoName] ∧
    (toResult compNoName).company_name = none ∧
    toResult compNoName ≠ toResult_spec compNoName := by
  decide

/-- C1 (amended): the loop continues for another model invocation if and
only if the finalized record at index 0 exists and has a non-empty name
(the source tests `tool_calls and tool_calls[0].get("name")`, not "at least
one named record").  When the test fails the loop terminates after this one
invocation with the transcript unchanged; when it succeeds and every tool
call executes, one assistant message carrying the turn's text (or null if
empty) and the descriptors of the named records in index order is appended,
the tool messages follow, and the cycle restarts, adding one to the
invocation count. -/
theorem agent_continue_iff_first_named (p : String → Option JVal)
    (e : SearchQuery → Option (List SearchResult)) (s : List Chunk)
    (rest : List (List Chunk)) (msgs : List OMsg) (out : List String) :
    (headNamed (consumeStream s initTurn).tool_calls = false →
      runAgent p e (s :: rest) msgs out =
        { messages := msgs, output := out ++ (consumeStream s initTurn).output,
          outcome := .done, invocations := 1 }) ∧
    (∀ o m, headNamed (consumeStream s initTurn).tool_calls = true →
      execCalls p e (consumeStream s initTurn).tool_calls = (o, m, true) →
      runAgent p e (s :: rest) msgs out =
        (let next := runAgent p e rest
          (msgs ++ OMsg.assistant
            (contentOpt (consumeStream s initTurn).collected_content)
            (namedDescs (consumeStream s initTurn).tool_calls) :: m)
          (out ++ (consumeStream s initTurn).output ++ o)
         { messages := next.messages, output := next.output,
           outcome := next.outcome, invocations := next.invocations + 1 })) := by
  constructor
  · intro hh
    have hstep : stepTurn p e msgs s =
        { messages := msgs, output := (consumeStream s initTurn).output,
          res := .finished } := by
      simp only [stepTurn, hh, Bool.false_eq_true, if_false]
    simp only [runAgent, hstep]
  · intro o m hh hex
    have hstep : stepTurn p e msgs s =
        { messages := msgs ++ OMsg.assistant
            (contentOpt (consumeStream s initTurn).collected_content)
            (namedDescs (consumeStream s initTurn).tool_calls) :: m,
          output := (consumeStream s initTurn).output ++ o,
          res := .continueLoop } := by
      simp only [stepTurn, hh, if_true, hex]
    simp only [runAgent, hstep]
    simp [List.append_assoc]

/-- C1 witness: both directions of the amended theorem at concrete inputs —
a turn whose only named record sits at index 1 terminates in one invocation,
and a turn whose record 0 is named continues. -/
theorem agent_continue_iff_first_named_witness :
    runAgent parseNoargs (pureExec []) [streamIdx1] [] [] =
      { messages := [], output := [] ++ (consumeStream streamIdx1 initTurn).output,
        outcome := .done, invocations := 1 } ∧
    runAgent parseNoargs (pureExec []) [streamIdx0] [] [] =
      (let next := runAgent parseNoargs (pureExec []) []
        ([] ++ OMsg.assistant
          (contentOpt (consumeStream streamIdx0 initTurn).collected_content)
          (namedDescs (consumeStream streamIdx0 initTurn).tool_calls) ::
          [OMsg.tool "call_1" []])
        ([] ++ (consumeStream streamIdx0 initTurn).output ++ [mkNotice []])
       { messages := next.messages, output := next.output,
         outcome := next.outcome, invocations := next.invocations + 1 }) :=
  ⟨(agent_continue_iff_first_named parseNoargs (pureExec []) streamIdx1 [] [] []).1
      rfl,
   (agent_continue_iff_first_named parseNoargs (pureExec []) streamIdx0 [] [] []).2
      [mkNotice []] [OMsg.tool "call_1" []] rfl rfl⟩

/-- C1 counterexample: the claim "the loop continues iff at least one
finalized record has a non-empty name" is false.  For the turn `streamIdx1`,
record 1 is named (`.any` below is true) but record 0 — created by padding —
has an empty name, so the run terminates after a single model invocation
even though a second provider stream is available, and no assistant message
is appended. -/
theorem agent_any_named_continue_fails :
    runAgent parseFail execFail [streamIdx1, streamIdx1] (initMessages []) [] =
      { messages := initMessages [], output := [], outcome := .done,
        invocations := 1 } ∧
    ((consumeStream streamIdx1 initTurn).tool_calls.any
      fun r => !r.name.isEmpty) = true :=
  ⟨rfl, rfl⟩

/-- C3 (amended): for a turn whose record at index 0 is named and whose
tool calls all execute, the loop appends exactly the assistant message
followed by one tool message per named record, in ascending index order
(the order of the filtered record list), each tool message produced by its
call before the next call runs and all of them before the next model
invocation; records with an empty name are skipped and produce no tool
message. -/
theorem turn_tool_messages (p : String → Option JVal)
    (e : SearchQuery → Option (List SearchResult)) (msgs : List OMsg)
    (chunks : List Chunk) (o : List String) (m : List OMsg)
    (hh : headNamed (consumeStream chunks initTurn).tool_calls = true)
    (hex : execCalls p e (consumeStream chunks initTurn).tool_calls = (o, m, true)) :
    stepTurn p e msgs chunks =
      { messages := msgs ++ OMsg.assistant
          (contentOpt (consumeStream chunks initTurn).collected_content)
          (namedDescs (consumeStream chunks initTurn).tool_calls) :: m,
        output := (consumeStream chunks initTurn).output ++ o,
        res := .continueLoop } ∧
    m.length = ((consumeStream chunks initTurn).tool_calls.filter
      fun r => !r.name.isEmpty).length ∧
    toolIds m = (((consumeStream chunks initTurn).tool_calls.filter
      fun r => !r.name.isEmpty).map fun r => r.id) ∧
    m.all isToolMsg = true := by
  have hids := execCalls_ok_ids p e (consumeStream chunks initTurn).tool_calls
    o m hex
  refine ⟨?_, hids.2.2, hids.1, hids.2.1⟩
  simp only [stepTurn, hh, if_true, hex]

/-- C3 witness: the amended theorem at a concrete one-call turn: exactly one
tool message, carrying the named record's id. -/
theorem turn_tool_messages_witness :
    stepTurn parseNoargs (pureExec []) [] streamIdx0 =
      { messages := [] ++ OMsg.assistant
          (contentOpt (consumeStream streamIdx0 initTurn).collected_content)
          (namedDescs (consumeStream streamIdx0 initTurn).tool_calls) ::
          [OMsg.tool "call_1" []],
        output := (consumeStream streamIdx0 initTurn).output ++ [mkNotice []],
        res := .continueLoop } ∧
    ([OMsg.tool "call_1" ([] : List SearchResult)]).length =
      ((consumeStream streamIdx0 initTurn).tool_calls.filter
        fun r => !r.name.isEmpty).length :=
  (fun h => ⟨h.1, h.2.1⟩)
    (turn_tool_messages parseNoargs (pureExec []) [] streamIdx0 [mkNotice []]
      [OMsg.tool "call_1" []] rfl rfl)

/-- C3 counterexample: the claim "for every turn whose finalized records
contain exactly k named records, exactly k tool messages are appended" is
false for `streamIdx1b`: the turn finalizes one named record (k = 1, at
index 1) but record 0 is unnamed, so the source's `tool_calls[0].get("name")`
test fails and zero tool messages are appended. -/
theorem turn_k_tool_messages_fails :
    stepTurn parseFail execFail [] streamIdx1b =
      { messages := [], output := [], res := .finished } ∧
    ((consumeStream streamIdx1b initTurn).tool_calls.filter
      fun r => !r.name.isEmpty).length = 1 :=
  ⟨rfl, rfl⟩

/-- C4 (amended): the request aborts exactly where Python raises.  If a
named call's arguments are not valid JSON, or the parsed document is not an
object, or its keywords value cannot be string-joined (null, a number, a
boolean, or an array with a non-string element), the loop aborts before the
call's progress notice; if the limit value is rejected by the SQL layer, or
the storage query raises, it aborts after the notice, producing no tool
Message for the failing call.  In every abort there is no retry, the
completed calls' tool messages survive, none of the remaining calls
execute, and the run ends aborted after the current invocation with
already-streamed output still delivered.  When the extractions succeed and
storage answers, the call does not abort — even if the document violates
the declared schema — and execution continues with the remaining calls. -/
theorem tool_failure_aborts (p : String → Option JVal)
    (e : SearchQuery → Option (List SearchResult))
    (pre post : List ToolCallRec) (r : ToolCallRec) (o : List String)
    (m : List OMsg) (hpre : execCalls p e pre = (o, m, true))
    (hn : r.name.isEmpty = false) :
    (p r.arguments = none →
      execCalls p e (pre ++ r :: post) = (o, m, false)) ∧
    (∀ j, p r.arguments = some j → getKeywords j = none →
      execCalls p e (pre ++ r :: post) = (o, m, false)) ∧
    (∀ j kws city, p r.arguments = some j → getKeywords j = some kws →
      getCity j = some city → getLimit j = none →
      execCalls p e (pre ++ r :: post) = (o ++ [mkNotice kws], m, false)) ∧
    (∀ j kws city lim, p r.arguments = some j → getKeywords j = some kws →
      getCity j = some city → getLimit j = some lim →
      e { keywords := kws, city := city, limit := lim } = none →
      execCalls p e (pre ++ r :: post) = (o ++ [mkNotice kws], m, false)) ∧
    (∀ j kws city lim res, p r.arguments = some j → getKeywords j = some kws →
      getCity j = some city → getLimit j = some lim →
      e { keywords := kws, city := city, limit := lim } = some res →
      execCalls p e (pre ++ r :: post) =
        (o ++ [mkNotice kws] ++ (execCalls p e post).1,
          m ++ OMsg.tool r.id res :: (execCalls p e post).2.1,
          (execCalls p e post).2.2)) ∧
    (∀ (s : List Chunk) (rest : List (List Chunk)) (msgs : List OMsg)
      (out : List String) (o2 : List String) (m2 : List OMsg),
      headNamed (consumeStream s initTurn).tool_calls = true →
      execCalls p e (consumeStream s initTurn).tool_calls = (o2, m2, false) →
      runAgent p e (s :: rest) msgs out =
        { messages := msgs ++ OMsg.assistant
            (contentOpt (consumeStream s initTurn).collected_content)
            (namedDescs (consumeStream s initTurn).tool_calls) :: m2,
          output := out ++ (consumeStream s initTurn).output ++ o2,
          outcome := .aborted, invocations := 1 }) := by
  refine ⟨?_, ?_, ?_, ?_, ?_, ?_⟩
  · intro hp
    rw [execCalls_append p e pre (r :: post), hpre,
      execCalls_cons_fail p e r post [] (execCall_parse_fail p e r hn hp)]
    simp
  · intro j hp hk
    rw [execCalls_append p e pre (r :: post), hpre,
      execCalls_cons_fail p e r post [] (execCall_kw_fail p e r j hn hp hk)]
    simp
  · intro j kws city hp hk hc hl
    rw [execCalls_append p e pre (r :: post), hpre,
      execCalls_cons_fail p e r post [mkNotice kws]
        (execCall_limit_fail p e r j kws city hn hp hk hc hl)]
    simp
  · intro j kws city lim hp hk hc hl he
    rw [execCalls_append p e pre (r :: post), hpre,
      execCalls_cons_fail p e r post [mkNotice kws]
        (execCall_exec_fail p e r j kws city lim hn hp hk hc hl he)]
    simp
  · intro j kws city lim res hp hk hc hl he
    rw [execCalls_append p e pre (r :: post), hpre,
      execCalls_cons_ok p e r post _ _
        (execCall_success p e r j kws city lim res hn hp hk hc hl he)]
    simp [List.append_assoc]
  · intro s rest msgs out o2 m2 hh hex
    have hstep : stepTurn p e msgs s =
        { messages := msgs ++ OMsg.assistant
            (contentOpt (consumeStream s initTurn).collected_content)
            (namedDescs (consumeStream s initTurn).tool_calls) :: m2,
          output := (consumeStream s initTurn).output ++ o2,
          res := .aborted } := by
      simp only [stepTurn, hh, if_true, hex]
      simp
    simp only [runAgent, hstep]
    simp [List.append_assoc]

/-- C4 witness: three branches of the amended theorem at concrete inputs —
arguments no parser accepts abort with no notice; a string-valued limit
aborts after the notice; the empty JSON object proceeds without abort and
produces the call's tool message. -/
theorem tool_failure_aborts_witness :
    execCalls parseFail execFail ([] ++ recBad :: []) = ([], [], false) ∧
    execCalls parseBadLimit execFail ([] ++ recBadLimit :: []) =
      ([] ++ [mkNotice []], [], false) ∧
    execCalls parseNoargs (pureExec []) ([] ++ recNoargs :: []) =
      ([] ++ [mkNotice []] ++ (execCalls parseNoargs (pureExec []) []).1,
        [] ++ OMsg.tool "call_a" (search_startups [] [] none (10 : Int).toNat) ::
          (execCalls parseNoargs (pureExec []) []).2.1,
        (execCalls parseNoargs (pureExec []) []).2.2) :=
  ⟨(tool_failure_aborts parseFail execFail [] [] recBad [] [] rfl rfl).1 rfl,
   (tool_failure_aborts parseBadLimit execFail [] [] recBadLimit [] []
      rfl rfl).2.2.1 docBadLimit [] none rfl rfl rfl rfl,
   (tool_failure_aborts parseNoargs (pureExec []) [] [] recNoargs [] []
      rfl rfl).2.2.2.2.1 (JVal.obj []) [] none (some 10)
      (search_startups [] [] none (10 : Int).toNat) rfl rfl rfl rfl rfl⟩

/-- C4 counterexample: the claim "if a named tool call's accumulated
arguments cannot be parsed as the declared schema ... no tool Message is
produced for the failing call, none of the turn's remaining tool calls
execute" is false: `docStrKeywords` binds `keywords` to the string "ab",
violating the declared schema (keywords must be an array of strings), yet
the call does not abort — Python's join and iteration treat the string as
its characters, the search runs with the per-character keywords
["a", "b"], and a tool Message is produced. -/
theorem schema_invalid_no_abort :
    schemaValid docStrKeywords = false ∧
    execCall parseStrKeywords (pureExec []) recStrKeywords =
      ([mkNotice ["a", "b"]],
        [OMsg.tool "call_s" (search_startups [] ["a", "b"] none 10)], true) ∧
    execCalls parseStrKeywords (pureExec []) [recStrKeywords] =
      ([mkNotice ["a", "b"]],
        [OMsg.tool "call_s" (search_startups [] ["a", "b"] none 10)], true) :=
  ⟨rfl, rfl, rfl⟩

/-- C8 (confirmed): in every transcript the loop produces — for any parser
and storage behaviour, any provider streams, and any caller messages — every
tool message's `tool_call_id` occurs among the descriptor ids of the nearest
preceding assistant message. -/
theorem transcript_tool_ids_match (p : String → Option JVal)
    (e : SearchQuery → Option (List SearchResult))
    (streams : List (List Chunk)) (caller : List (String × String)) :
    okFrom [] (runAgent p e streams (initMessages caller) []).messages = true :=
  runAgent_okFrom p e streams (initMessages caller) []
    (okFrom_initMessages caller)

/-- C9 (confirmed): when a named call's arguments parse to a JSON object
without a `"keywords"` key, the request does not fail: `args.get("keywords",
[])` supplies the empty list, the progress notice is emitted with an empty
join, the search runs with no keyword filtering — every record passes the
keyword stage — and at most `limit` rows come back as the call's tool
message. -/
theorem missing_keywords_defaults_empty (db : List Company) (r : ToolCallRec)
    (kvs : List (String × JVal)) (city : Option String) (lim : Int)
    (p : String → Option JVal) (hn : r.name.isEmpty = false)
    (hp : p r.arguments = some (JVal.obj kvs))
    (hk : jLookup kvs "keywords" = none)
    (hc : getCity (JVal.obj kvs) = some city)
    (hl : getLimit (JVal.obj kvs) = some (some lim)) (hpos : 0 ≤ lim) :
    execCall p (pureExec db) r =
      ([mkNotice []],
        [OMsg.tool r.id (search_startups db [] city lim.toNat)], true) ∧
    (search_startups db [] city lim.toNat).length ≤ lim.toNat ∧
    search_startups db [] city lim.toNat =
      ((db.filter (cityStage city)).take lim.toNat).map toResult := by
  have hkw : getKeywords (JVal.obj kvs) = some [] := by
    simp [getKeywords, hk]
  have hexec : pureExec db { keywords := [], city := city, limit := some lim } =
      some (search_startups db [] city lim.toNat) := by
    show (if lim < 0 then none else some (search_startups db [] city lim.toNat)) =
      some (search_startups db [] city lim.toNat)
    rw [if_neg (not_lt.mpr hpos)]
  exact ⟨execCall_success p (pureExec db) r (JVal.obj kvs) [] city (some lim) _
      hn hp hkw hc hl hexec,
    length_search_startups_le db [] city lim.toNat,
    search_startups_kws_nil db city lim.toNat⟩

/-- C9 witness: the empty JSON object as arguments against a two-row table:
the call succeeds and returns both rows. -/
theorem missing_keywords_defaults_empty_witness :
    execCall parseNoargs (pureExec [compFull, compNoName]) recNoargs =
      ([mkNotice []],
        [OMsg.tool "call_a"
          (search_startups [compFull, compNoName] [] none (10 : Int).toNat)],
        true) ∧
    (search_startups [compFull, compNoName] [] none (10 : Int).toNat).length ≤
      (10 : Int).toNat :=
  (fun h => ⟨h.1, h.2.1⟩)
    (missing_keywords_defaults_empty [compFull, compNoName] recNoargs [] none
      10 parseNoargs rfl rfl rfl rfl rfl (by decide))

/-- C10 (confirmed): a fragment carrying index `i` pads the record list with
fresh all-empty records up to length `i + 1`, so after any fragment batch
the list is dense with length one past the largest index seen; an index that
never received a fragment still holds the all-empty record; and the all-empty
record, having an empty name, is skipped by the execution phase and produces
no tool message. -/
theorem accumulator_padding_dense (ds : List ToolCallDelta) :
    (∀ tcs : List ToolCallRec,
      (ds.foldl applyTC tcs).length = maxIdxFrom tcs.length ds) ∧
    (∀ j : Nat, (∀ d ∈ ds, d.index ≠ some j) →
      (ds.foldl applyTC []).getD j emptyRec = emptyRec) ∧
    (∀ (p : String → Option JVal)
      (e : SearchQuery → Option (List SearchResult)) (rs : List ToolCallRec),
      execCalls p e (emptyRec :: rs) = execCalls p e rs) := by
  refine ⟨fun tcs => length_foldl_applyTC ds tcs, ?_, ?_⟩
  · intro j h
    rw [getD_foldl_applyTC_ne ds [] j h]
    rfl
  · intro p e rs
    exact execCalls_cons_unnamed p e emptyRec rs rfl

/-- C10 witness: a single fragment at index 2 grows the list to length 3 and
leaves the untouched index 1 holding the all-empty record. -/
theorem accumulator_padding_dense_witness :
    ([argDelta 2 "x"].foldl applyTC []).length = maxIdxFrom 0 [argDelta 2 "x"] ∧
    ([argDelta 2 "x"].foldl applyTC []).getD 1 emptyRec = emptyRec :=
  ⟨(accumulator_padding_dense [argDelta 2 "x"]).1 [],
   (accumulator_padding_dense [argDelta 2 "x"]).2.1 1 (by decide)⟩

end CompanySearch
